import Mathlib

/-!
Shallow embedding of the layout-aware financial extraction engine of this
repository (src/backend/scraper.py, src/improved_financial_extractor.py,
src/backend/app/services/extract.py, src/app/processors/screenshotter.py).

Page coordinates and numeric values are modelled by rationals (the Python
code uses binary64 floats; every arithmetic fact stated here is exact in
both models), Python strings by Lean strings.  Calls into external
libraries (pdfplumber page queries, rapidfuzz scoring, unidecode
transliteration) are modelled as explicit function parameters or record
fields holding the library's answers.
-/

set_option allowUnsafeReducibility true

attribute [semireducible] Rat.add Rat.sub Rat.mul Rat.inv Rat.ofScientific

namespace FinScraper

/-- Python str.strip() / float() whitespace set (ASCII model). -/
def isPyWs (c : Char) : Bool :=
  c = ' ' || c = '\t' || c = '\n' || c = '\r' || c = '\x0b' || c = '\x0c'

/-- Python str.strip() on a character list. -/
def pyStripList (cs : List Char) : List Char :=
  ((cs.dropWhile isPyWs).reverse.dropWhile isPyWs).reverse

/-- Python str.strip(). -/
def pyStrip (s : String) : String := ⟨pyStripList s.data⟩

/-- Python str.lower() (ASCII model, applied characterwise). -/
def pyLower (s : String) : String := ⟨s.data.map Char.toLower⟩

/-- Python " ".join(parts). -/
def joinSpace : List String → String
  | [] => ""
  | [s] => s
  | s :: rest => s ++ " " ++ joinSpace rest

/-- A pdfplumber word token: text plus bounding box, page-point units. -/
structure Word where
  text : String
  x0 : ℚ
  top : ℚ
  x1 : ℚ
  bottom : ℚ
  deriving DecidableEq, Repr

/-- A bounding box (x0, top, x1, bottom) in page-point units. -/
structure BBox where
  x0 : ℚ
  top : ℚ
  x1 : ℚ
  bottom : ℚ
  deriving DecidableEq, Repr

/-- Character class [\d,\.] of the numeric-token regex. -/
def numMidChar (c : Char) : Bool := c.isDigit || c = ',' || c = '.'

/-- Tail of the numeric-token regex after the first digit:
    [\d,\.]* followed by an optional [%\)]. -/
def numTailOk : List Char → Bool
  | [] => true
  | [c] => numMidChar c || c = '%' || c = ')'
  | c :: rest => numMidChar c && numTailOk rest

/-- scraper.is_numeric_token: replace the unicode minus by ASCII minus,
    then match the anchored regex [\$\(\-\+]?\d[\d,\.]*[%\)]?.  A CPython
    dollar anchor also matches just before one trailing newline, which the
    model reproduces by dropping a single final newline. -/
def is_numeric_token (text : String) : Bool :=
  let cs := text.data.map fun c => if c = '−' then '-' else c
  let cs := if cs.getLast? = some '\n' then cs.dropLast else cs
  match cs with
  | [] => false
  | c :: rest =>
    let body := if c = '$' || c = '(' || c = '-' || c = '+' then rest else c :: rest
    match body with
    | [] => false
    | d :: tail => d.isDigit && numTailOk tail

/-- The while loop of scraper.join_numeric_sequence: starting from the
    first word, greedily consume numeric-like tokens, accumulating the
    text parts (in reverse), the right edge of the last consumed token and
    the running maximum bottom. -/
def joinLoop (x0 top lastRight bottom : ℚ) (parts : List String) :
    List Word → String × BBox
  | [] => (joinSpace parts.reverse, ⟨x0, top, lastRight, bottom⟩)
  | u :: us =>
    if is_numeric_token u.text then
      joinLoop x0 top u.x1 (max bottom u.bottom) (u.text :: parts) us
    else
      (joinSpace parts.reverse, ⟨x0, top, lastRight, bottom⟩)

/-- scraper.join_numeric_sequence: join consecutive numeric-like tokens
    starting at start_index into a value string and a bounding box whose
    left/top come from the start word, whose right edge is the last
    consumed token's x1 and whose bottom is the maximum consumed bottom. -/
def join_numeric_sequence (words : List Word) (start_index : ℕ) : String × BBox :=
  match words.drop start_index with
  | [] => ("", ⟨0, 0, 0, 0⟩)
  | w :: rest => joinLoop w.x0 w.top w.x1 w.bottom [] (w :: rest)

/-- The scan loop of scraper.find_value_near_phrase: walk the words from
    index i onward; at the first word in the anchor's y band whose left
    edge is at or right of the anchor's right edge and whose text is
    numeric-like, return the joined numeric sequence from there. -/
def scanVal (all : List Word) (anchor : Word) (ytol : ℚ) :
    ℕ → List Word → Option (String × BBox)
  | _, [] => none
  | i, w :: rest =>
    if |w.top - anchor.top| ≤ ytol ∧ anchor.x1 ≤ w.x0 then
      if is_numeric_token w.text then some (join_numeric_sequence all i)
      else scanVal all anchor ytol (i + 1) rest
    else scanVal all anchor ytol (i + 1) rest

/-- scraper.find_value_near_phrase: anchor on the last token of the match
    span, set y_tol = max(2.0, 1.5 x anchor height), and search rightwards
    on the same line for the first numeric sequence.  A Python index of
    end-1 = -1 (empty span) selects the last word of the list. -/
def find_value_near_phrase (words : List Word) (match_span : ℕ × ℕ) :
    Option (String × BBox) :=
  let e := match_span.2
  if words.length ≤ e then none
  else
    match (if e = 0 then words.getLast? else words.get? (e - 1)) with
    | none => none
    | some anchor =>
      let ytol := max 2 ((anchor.bottom - anchor.top) * 1.5)
      scanVal words anchor ytol e (words.drop e)

/-- Numeric value of a digit list, most significant first. -/
def digitsVal (ds : List Char) : ℕ :=
  ds.foldl (fun a c => a * 10 + (c.toNat - '0'.toNat)) 0

/-- Model of the CPython float() builtin on finite decimal and scientific
    string literals: optional sign, integer digits, optional fraction,
    optional exponent.  Binary64 rounding is idealized to exact rational
    arithmetic; the special forms inf/nan and underscore digit grouping
    (which cannot arise from this pipeline's inputs) are unparseable. -/
def pyFloat (s : String) : Option ℚ :=
  let cs := pyStripList s.data
  let sgn : ℚ := match cs.head? with | some '-' => -1 | _ => 1
  let cs := match cs with
    | '+' :: r => r
    | '-' :: r => r
    | r => r
  let ip := cs.takeWhile Char.isDigit
  let cs1 := cs.dropWhile Char.isDigit
  let fp := match cs1 with
    | '.' :: r => r.takeWhile Char.isDigit
    | _ => []
  let cs2 := match cs1 with
    | '.' :: r => r.dropWhile Char.isDigit
    | r => r
  let eres : Option (ℤ × List Char) := match cs2 with
    | 'e' :: r | 'E' :: r =>
      let es : ℤ := match r.head? with | some '-' => -1 | _ => 1
      let r1 := match r with
        | '+' :: t => t
        | '-' :: t => t
        | t => t
      let eds := r1.takeWhile Char.isDigit
      if eds.isEmpty then none else some (es * digitsVal eds, r1.dropWhile Char.isDigit)
    | r => some (0, r)
  match eres with
  | none => none
  | some (ev, rest) =>
    if ip.isEmpty && fp.isEmpty then none
    else if ¬ rest.isEmpty then none
    else some (sgn * ((digitsVal ip : ℚ) + (digitsVal fp : ℚ) / (10 : ℚ) ^ fp.length)
                 * (10 : ℚ) ^ ev)

/-- scraper._clean_number_string: strip, drop thousands commas, normalize
    the unicode minus, turn a leading/trailing parenthesis pair into a
    leading minus, drop dollar and percent signs, then parse as float. -/
def _clean_number_string (value_str : String) : Option ℚ :=
  let s := pyStripList value_str.data
  let s := (s.filter fun c => c ≠ ',').map fun c => if c = '−' then '-' else c
  let s := if s.head? = some '(' && s.getLast? = some ')' then
             '-' :: (s.drop 1).dropLast
           else s
  let s := s.filter fun c => c ≠ '$' && c ≠ '%'
  pyFloat ⟨s⟩

/-- scraper.normalize_value_by_units: scale the parsed value by the
    detected unit's factor; an absent (or unrecognized) unit leaves the
    value unchanged. -/
def normalize_value_by_units (value : ℚ) (units : Option String) : ℚ :=
  match units with
  | none => value
  | some u =>
    if u = "thousands" then value * 1000
    else if u = "millions" then value * 1000000
    else if u = "billions" then value * 1000000000
    else value

/-! ### A small matching engine for the regular expressions of the code

The patterns used by the unit/currency detectors and the coarse phrase
search are alternations of literal runs with optional single characters
(x?), whitespace runs (\s+) and word-boundary anchors (\b).  The engine
below interprets exactly that fragment. -/

/-- Python \w on ASCII text: letters, digits, underscore. -/
def isWordChar (c : Char) : Bool := c.isAlphanum || c = '_'

/-- One regex atom of the fragment used by the code. -/
inductive RAtom where
  | lit (c : Char)
  | optc (c : Char)
  | wsp
  deriving DecidableEq, Repr

/-- All rests obtainable by consuming one or more leading whitespace
    characters (the \s+ atom, with backtracking). -/
def wsSplits : List Char → List (List Char)
  | [] => []
  | c :: cs => if isPyWs c then cs :: wsSplits cs else []

/-- All rests obtainable by matching the atom sequence at the front. -/
def matchAtoms : List RAtom → List Char → List (List Char)
  | [], r => [r]
  | RAtom.lit _ :: _, [] => []
  | RAtom.lit c :: as, x :: xs => if x = c then matchAtoms as xs else []
  | RAtom.optc c :: as, r =>
    (match r with
     | x :: xs => if x = c then matchAtoms as xs else []
     | [] => []) ++ matchAtoms as r
  | RAtom.wsp :: as, r => (wsSplits r).flatMap (matchAtoms as)

/-- An alternation pattern, optionally anchored by \b on either side. -/
structure RPattern where
  bStart : Bool
  alts : List (List RAtom)
  bEnd : Bool
  deriving Repr

/-- Whether index i of the character list holds a word character. -/
def wordAtIdx (cs : List Char) (i : ℕ) : Bool :=
  match cs.get? i with
  | some c => isWordChar c
  | none => false

/-- Python \b at position i: word-ness changes between i-1 and i. -/
def boundaryAt (cs : List Char) (i : ℕ) : Bool :=
  (if i = 0 then false else wordAtIdx cs (i - 1)) != wordAtIdx cs i

/-- re.search of the pattern anywhere in the text. -/
def rSearch (p : RPattern) (text : String) : Bool :=
  let cs := text.data
  (List.range (cs.length + 1)).any fun i =>
    (!p.bStart || boundaryAt cs i) &&
      p.alts.any fun alt =>
        (matchAtoms alt (cs.drop i)).any fun rest =>
          !p.bEnd || boundaryAt cs (cs.length - rest.length)

/-- A literal alternative, one atom per character. -/
def litAlt (s : String) : List RAtom := s.data.map RAtom.lit

/-- Case-insensitive whole-phrase search: the model of
    re.search(r"\b" + re.escape(term) + r"\b", text, re.IGNORECASE). -/
def coarsePhraseSearch (text term : String) : Bool :=
  rSearch ⟨true, [litAlt (pyLower term)], true⟩ (pyLower text)

/-- Substring containment (the Python "in" operator on str). -/
def strContains (hay needle : String) : Bool :=
  (List.range (hay.data.length + 1)).any fun i => needle.data.isPrefixOf (hay.data.drop i)

/-! ### Page abstraction

A pdfplumber page is external to this core; the model carries the
answers the code asks of it: full extracted text, exact search hits for a
term, the extracted word list, and the text extracted from a crop
rectangle (x0, top, x1, bottom). -/

structure Page where
  text : String
  searchHits : String → List BBox
  words : List Word
  cropText : ℚ → ℚ → ℚ → ℚ → String
  width : ℚ
  height : ℚ

/-- scraper.detect_units_near unit-cue patterns, in the order tested:
    \b(thousands|000s)\b. -/
def thousandsPat : RPattern := ⟨true, [litAlt "thousands", litAlt "000s"], true⟩

/-- \b(million|\$m|aud m|aud million|in millions)\b. -/
def millionsPat : RPattern :=
  ⟨true, [litAlt "million", litAlt "$m", litAlt "aud m", litAlt "aud million",
          litAlt "in millions"], true⟩

/-- \b(billion|\$bn|aud bn|aud billion|in billions)\b. -/
def billionsPat : RPattern :=
  ⟨true, [litAlt "billion", litAlt "$bn", litAlt "aud bn", litAlt "aud billion",
          litAlt "in billions"], true⟩

/-- scraper.detect_units_near: crop a window around the label (150pt
    margins left and right, a 60pt band above), extract its lowercased
    text, and test the thousands, millions, billions and percent cue
    groups in order, returning the first hit. -/
def detect_units_near (page : Page) (box : BBox) : Option String :=
  let top := box.top
  let left := max 0 (box.x0 - 150)
  let right := min page.width (box.x1 + 150)
  let band_top := max 0 (top - 60)
  let text := pyLower (page.cropText left band_top right top)
  if text = "" then none
  else if rSearch thousandsPat text then some "thousands"
  else if rSearch millionsPat text then some "millions"
  else if rSearch billionsPat text then some "billions"
  else if strContains text "%" then some "%"
  else none

/-- scraper.detect_currency_near: crop a window around the label (200pt
    margins, an 80pt band above) and test substring cues for each
    currency in order. -/
def detect_currency_near (page : Page) (box : BBox) : Option String :=
  let top := box.top
  let left := max 0 (box.x0 - 200)
  let right := min page.width (box.x1 + 200)
  let band_top := max 0 (top - 80)
  let text := pyLower (page.cropText left band_top right top)
  if text = "" then none
  else if strContains text "aud" || strContains text "a$" then some "AUD"
  else if strContains text "cad" || strContains text "c$" then some "CAD"
  else if strContains text "usd" || strContains text "us$" || strContains text "$" then
    some "USD"
  else if strContains text "eur" || strContains text "€" then some "EUR"
  else if strContains text "gbp" || strContains text "£" then some "GBP"
  else if strContains text "jpy" || strContains text "¥" then some "JPY"
  else if strContains text "cny" || strContains text "rmb" then some "CNY"
  else if strContains text "sgd" then some "SGD"
  else none

/-! ### Fuzzy label matching (scraper.normalize_label / fuzzy_label_match)

The unidecode transliteration and the rapidfuzz token-sort scorer are
external libraries; they enter the model as the fields of Ext.  The
scorer models int(fuzz.token_sort_ratio(query, choice)). -/

structure Ext where
  unidecode : String → String
  tokenSortScore : String → String → ℕ

/-- Characters kept by normalize_label's substitution
    re.sub(r"[^a-z0-9%\-\s]", " ", t). -/
def labelKeepChar (c : Char) : Bool :=
  (('a' ≤ c) && (c ≤ 'z')) || c.isDigit || c = '%' || c = '-' || isPyWs c

/-- Collapse whitespace runs to single spaces (re.sub(r"\s+", " ", t)),
    written as a one-flag scanner: the flag records whether the previous
    character was whitespace (whose run already emitted its space). -/
def collapseWsAux : Bool → List Char → List Char
  | _, [] => []
  | prevWs, c :: cs =>
    if isPyWs c then
      if prevWs then collapseWsAux true cs
      else ' ' :: collapseWsAux true cs
    else c :: collapseWsAux false cs

/-- Collapse whitespace runs to single spaces. -/
def collapseWs (cs : List Char) : List Char := collapseWsAux false cs

/-- scraper.normalize_label: transliterate, lowercase, replace anything
    outside [a-z0-9%\-\s] by a space, condense whitespace, strip. -/
def normalize_label (ext : Ext) (text : String) : String :=
  let t := pyLower (ext.unidecode text)
  let t := t.data.map fun c => if labelKeepChar c then c else ' '
  ⟨pyStripList (collapseWs t)⟩

/-- The fold of rapidfuzz process.extractOne: track the best (choice,
    score, index), a strictly larger score displacing the incumbent, so
    ties keep the earliest choice. -/
def extractOneAux (scorer : String → String → ℕ) (q : String) :
    ℕ → String × ℕ × ℕ → List String → String × ℕ × ℕ
  | _, best, [] => best
  | i, best, c :: cs =>
    let s := scorer q c
    extractOneAux scorer q (i + 1) (if best.2.1 < s then (c, s, i) else best) cs

/-- rapidfuzz process.extractOne with no score cutoff: best-scoring
    choice, earliest index on ties; none only for an empty choice list. -/
def extractOne (scorer : String → String → ℕ) (q : String) :
    List String → Option (String × ℕ × ℕ)
  | [] => none
  | c :: cs => some (extractOneAux scorer q 1 (c, scorer q c, 0) cs)

/-- scraper.fuzzy_label_match: normalize the label and the candidates,
    run extractOne with the token-sort scorer, and return the original
    candidate at the winning index together with its integer score. -/
def fuzzy_label_match (ext : Ext) (label : String) (candidates : List String) :
    Option String × ℕ :=
  let norm_label := normalize_label ext label
  let norm_candidates := candidates.map (normalize_label ext)
  if norm_label = "" || candidates.isEmpty then (none, 0)
  else
    match extractOne ext.tokenSortScore norm_label norm_candidates with
    | none => (none, 0)
    | some (_, score, idx) => (some (candidates.getD idx ""), score)

/-! ### The number regex of extract_financial_data

re.findall(r"\(?[\$\d,]+\)?\.?\d*%?", line_text), kept when the match
contains a digit. -/

/-- Character class [\$\d,]. -/
def numCoreChar (c : Char) : Bool := c = '$' || c.isDigit || c = ','

/-- Consume one optional literal character. -/
def optTake (c : Char) (acc rest : List Char) : List Char × List Char :=
  match rest with
  | x :: xs => if x = c then (acc ++ [x], xs) else (acc, rest)
  | [] => (acc, rest)

/-- The tail \)?\.?\d*%? of the number regex after the core run. -/
def numMatchTail (acc rest : List Char) : List Char × List Char :=
  let (a1, r1) := optTake ')' acc rest
  let (a2, r2) := optTake '.' a1 r1
  let a3 := a2 ++ r2.takeWhile Char.isDigit
  let r3 := r2.dropWhile Char.isDigit
  optTake '%' a3 r3

/-- Try the number regex at the current position; the optional leading
    parenthesis is kept only when a core character follows (regex
    backtracking otherwise retries without it, and fails). -/
def numMatchAt : List Char → Option (List Char × List Char)
  | [] => none
  | '(' :: cs =>
    match cs.head? with
    | some d =>
      if numCoreChar d then
        some (numMatchTail ('(' :: cs.takeWhile numCoreChar) (cs.dropWhile numCoreChar))
      else none
    | none => none
  | c :: cs =>
    if numCoreChar c then
      some (numMatchTail ((c :: cs).takeWhile numCoreChar) ((c :: cs).dropWhile numCoreChar))
    else none

/-- re.findall scanning loop; the fuel is an upper bound on the scan
    length (every step consumes at least one character). -/
def findallNumsAux : ℕ → List Char → List (List Char)
  | 0, _ => []
  | _ + 1, [] => []
  | fuel + 1, c :: cs =>
    match numMatchAt (c :: cs) with
    | some (m, rest) => m :: findallNumsAux fuel rest
    | none => findallNumsAux fuel cs

/-- All number-regex matches of a line that contain a digit. -/
def numberMatches (line : String) : List String :=
  ((findallNumsAux line.data.length line.data).filter fun m =>
      m.any Char.isDigit).map fun m => ⟨m⟩

/-! ### The orchestrator extract_financial_data -/

/-- One schema entry (a MetricSpec dictionary). -/
structure Metric where
  standard_name : String
  search_terms : List String
  value_kind : Option String
  deriving Repr

/-- One extracted data point, as assembled by extract_financial_data.
    The QC snippet path (file-system output of create_qc_snippet) is not
    part of the functional model. -/
structure DataPoint where
  bank_name : Option String
  report_year : Option ℤ
  metric_name : String
  value : ℚ
  raw_value : String
  value_units : Option String
  value_currency : Option String
  value_kind : String
  source_page : ℕ
  source_term_used : String
  term_bbox : BBox
  is_validated : Bool
  deriving DecidableEq, Repr

/-- The term-box resolution step of extract_financial_data: take the
    first exact search hit; when there is none, fall back to the fuzzy
    single-token match, accepted only with score at least 80, locating
    the first word whose text equals the best candidate. -/
def termBoxFor (ext : Ext) (page : Page) (term : String) : Option BBox :=
  match page.searchHits term with
  | hit :: _ => some hit
  | [] =>
    let ws := page.words
    if ws.isEmpty then none
    else
      let label_texts := ws.map Word.text
      match fuzzy_label_match ext term label_texts with
      | (none, _) => none
      | (some best_label, score) =>
        if score < 80 then none
        else
          match ws.find? fun w => w.text = best_label with
          | some w => some ⟨w.x0, w.top, w.x1, w.bottom⟩
          | none => none

/-- The horizontal band crop of extract_financial_data around the term
    box, and its extracted text. -/
def lineTextFor (page : Page) (tb : BBox) : String :=
  page.cropText 0 (max 0 (tb.top - 5)) page.width (min page.height (tb.bottom + 5))

/-- The first digit-bearing number-regex match on the band, stripped. -/
def rawValueFor (page : Page) (tb : BBox) : Option String :=
  (numberMatches (lineTextFor page tb)).head?.map pyStrip

/-- The body of the innermost term loop of extract_financial_data: the
    coarse whole-page phrase test, term-box resolution, the banded number
    search, numeric parsing, unit/currency detection and assembly of the
    data point.  Any failed step moves on to the next term (none). -/
def processTerm (ext : Ext) (bank : Option String) (year : Option ℤ)
    (page : Page) (page_num : ℕ) (metric : Metric) (term : String) :
    Option DataPoint :=
  if coarsePhraseSearch page.text term then
    (termBoxFor ext page term).bind fun tb =>
      (rawValueFor page tb).bind fun value_str =>
        (_clean_number_string value_str).bind fun value_float =>
          let units := detect_units_near page tb
          let currency := detect_currency_near page tb
          some { bank_name := bank
                 report_year := year
                 metric_name := metric.standard_name
                 value := normalize_value_by_units value_float units
                 raw_value := value_str
                 value_units := units
                 value_currency := currency
                 value_kind := metric.value_kind.getD "amount"
                 source_page := page_num + 1
                 source_term_used := term
                 term_bbox := tb
                 is_validated := false }
  else none

/-- The term loop on one page: first term that yields a data point. -/
def findTermHit (ext : Ext) (bank : Option String) (year : Option ℤ)
    (page : Page) (page_num : ℕ) (metric : Metric) :
    List String → Option DataPoint
  | [] => none
  | term :: ts =>
    match processTerm ext bank year page page_num metric term with
    | some d => some d
    | none => findTermHit ext bank year page page_num metric ts

/-- The page loop for one metric, carrying the 0-based page number; the
    found_metric flag of the source becomes first-some semantics. -/
def findMetricAux (ext : Ext) (bank : Option String) (year : Option ℤ)
    (metric : Metric) : ℕ → List Page → Option DataPoint
  | _, [] => none
  | page_num, page :: rest =>
    match findTermHit ext bank year page page_num metric metric.search_terms with
    | some d => some d
    | none => findMetricAux ext bank year metric (page_num + 1) rest

/-- scraper.extract_financial_data: for each metric in schema order, scan
    pages in document order and, within a page, the metric's search terms
    in listed order; the first success is final for that metric. -/
def extract_financial_data (ext : Ext) (pages : List Page) (schema : List Metric)
    (bank : Option String) (year : Option ℤ) : List DataPoint :=
  schema.flatMap fun metric => (findMetricAux ext bank year metric 0 pages).toList

/-- Follows the spec's words (claim C1): phrase-major, page-minor
    iteration — for each candidate phrase in listed order, for each page
    in document order, the first success wins.  Stated only to compare
    with the page-major order of the source. -/
def findMetricPhraseMajorSpecced (ext : Ext) (bank : Option String)
    (year : Option ℤ) (pages : List Page) (metric : Metric) : Option DataPoint :=
  metric.search_terms.findSome? fun term =>
    pages.enum.findSome? fun pi => processTerm ext bank year pi.2 pi.1 metric term

/-! ### improved_financial_extractor: unit/currency detectors and the
confidence scorer -/

/-- \b(thousands?|000s?|k)\b of UNIT_PATTERNS. -/
def thousandsPatI : RPattern :=
  ⟨true, [litAlt "thousand" ++ [RAtom.optc 's'],
          litAlt "000" ++ [RAtom.optc 's'], [RAtom.lit 'k']], true⟩

/-- \b(millions?|\$?m\b|aud\s+m|aud\s+million|in\s+millions?)\b. -/
def millionsPatI : RPattern :=
  ⟨true, [litAlt "million" ++ [RAtom.optc 's'],
          [RAtom.optc '$', RAtom.lit 'm'],
          litAlt "aud" ++ [RAtom.wsp, RAtom.lit 'm'],
          litAlt "aud" ++ [RAtom.wsp] ++ litAlt "million",
          litAlt "in" ++ [RAtom.wsp] ++ litAlt "million" ++ [RAtom.optc 's']], true⟩

/-- \b(billions?|\$?bn\b|aud\s+bn|aud\s+billion|in\s+billions?)\b. -/
def billionsPatI : RPattern :=
  ⟨true, [litAlt "billion" ++ [RAtom.optc 's'],
          [RAtom.optc '$', RAtom.lit 'b', RAtom.lit 'n'],
          litAlt "aud" ++ [RAtom.wsp] ++ litAlt "bn",
          litAlt "aud" ++ [RAtom.wsp] ++ litAlt "billion",
          litAlt "in" ++ [RAtom.wsp] ++ litAlt "billion" ++ [RAtom.optc 's']], true⟩

/-- \b(trillions?|\$?t\b|aud\s+t|aud\s+trillion|in\s+trillions?)\b. -/
def trillionsPatI : RPattern :=
  ⟨true, [litAlt "trillion" ++ [RAtom.optc 's'],
          [RAtom.optc '$', RAtom.lit 't'],
          litAlt "aud" ++ [RAtom.wsp, RAtom.lit 't'],
          litAlt "aud" ++ [RAtom.wsp] ++ litAlt "trillion",
          litAlt "in" ++ [RAtom.wsp] ++ litAlt "trillion" ++ [RAtom.optc 's']], true⟩

/-- UNIT_PATTERNS in dictionary insertion order. -/
def unitPatternsI : List (String × RPattern) :=
  [("thousands", thousandsPatI), ("millions", millionsPatI),
   ("billions", billionsPatI), ("trillions", trillionsPatI)]

/-- CURRENCY_PATTERNS in dictionary insertion order; the euro, pound and
    yen alternatives carry the (mojibake) character sequences present in
    the source file. -/
def currencyPatternsI : List (String × List RPattern) :=
  [("AUD", [⟨false, [litAlt "$"], false⟩, ⟨false, [litAlt "aud"], false⟩,
            ⟨false, [litAlt "australian" ++ [RAtom.wsp] ++ litAlt "dollar"], false⟩]),
   ("USD", [⟨false, [litAlt "us$"], false⟩, ⟨false, [litAlt "usd"], false⟩,
            ⟨false, [litAlt "dollar"], false⟩]),
   ("EUR", [⟨false, [litAlt "‚Ç¨"], false⟩, ⟨false, [litAlt "eur"], false⟩,
            ⟨false, [litAlt "euro"], false⟩]),
   ("GBP", [⟨false, [litAlt "¬£"], false⟩, ⟨false, [litAlt "gbp"], false⟩,
            ⟨false, [litAlt "pound"], false⟩]),
   ("CAD", [⟨false, [litAlt "c$"], false⟩, ⟨false, [litAlt "cad"], false⟩,
            ⟨false, [litAlt "canadian" ++ [RAtom.wsp] ++ litAlt "dollar"], false⟩]),
   ("JPY", [⟨false, [litAlt "¬•"], false⟩, ⟨false, [litAlt "jpy"], false⟩,
            ⟨false, [litAlt "yen"], false⟩]),
   ("CNY", [⟨false, [litAlt "¬•"], false⟩, ⟨false, [litAlt "cny"], false⟩,
            ⟨false, [litAlt "rmb"], false⟩, ⟨false, [litAlt "yuan"], false⟩]),
   ("SGD", [⟨false, [litAlt "s$"], false⟩, ⟨false, [litAlt "sgd"], false⟩,
            ⟨false, [litAlt "singapore" ++ [RAtom.wsp] ++ litAlt "dollar"], false⟩])]

/-- The +-200-character context slice text[max(0,pos-200):min(len,pos+200)],
    lowercased (the searches run with re.IGNORECASE over lowercase
    patterns). -/
def contextSlice (text : String) (pos : ℕ) : List Char :=
  let cs := (pyLower text).data
  let start := pos - 200
  ((cs.drop start).take (min cs.length (pos + 200) - start))

/-- improved_financial_extractor._detect_units: first unit group whose
    pattern matches the context window. -/
def _detect_units (text : String) (match_pos : ℕ) : Option String :=
  (unitPatternsI.find? fun np => rSearch np.2 ⟨contextSlice text match_pos⟩).map
    Prod.fst

/-- improved_financial_extractor._detect_currency: first currency any of
    whose patterns matches the context window. -/
def _detect_currency (text : String) (match_pos : ℕ) : Option String :=
  (currencyPatternsI.find? fun np =>
      np.2.any fun p => rSearch p ⟨contextSlice text match_pos⟩).map Prod.fst

/-- The clean-numeric test re.match(r"^[\d,]+\.?\d*$", raw_value), with
    the CPython dollar anchor also matching before one trailing
    newline. -/
def cleanRawValue (s : String) : Bool :=
  let cs := if s.data.getLast? = some '\n' then s.data.dropLast else s.data
  let core := cs.takeWhile fun c => c.isDigit || c = ','
  let r1 := cs.dropWhile fun c => c.isDigit || c = ','
  if core.isEmpty then false
  else
    match r1 with
    | [] => true
    | '.' :: r2 => (r2.dropWhile Char.isDigit).isEmpty
    | _ => false

/-- improved_financial_extractor._calculate_confidence: base 0.7, +0.2
    for a clean raw value, +0.1 each for detected units and currency,
    capped at 1.0.  The pattern argument is unused, as in the source. -/
def _calculate_confidence (pattern raw_value text : String) (match_pos : ℕ) : ℚ :=
  let base : ℚ := 7 / 10
  let base := if cleanRawValue raw_value then base + 2 / 10 else base
  let base := if (_detect_units text match_pos).isSome then base + 1 / 10 else base
  let base := if (_detect_currency text match_pos).isSome then base + 1 / 10 else base
  min 1 base

/-- services/extract.extract_document: confidence 0.7 with a bbox, 0.5
    without. -/
def mvp_confidence (bbox : Option BBox) : ℚ :=
  if bbox.isSome then 7 / 10 else 5 / 10

/-! ### screenshotter.render_cell_screenshot -/

/-- The CPython int() builtin on a float: truncation toward zero. -/
def pyInt (q : ℚ) : ℤ := if 0 ≤ q then ⌊q⌋ else -⌊-q⌋

/-- Clamp an integer pixel coordinate into [lo, hi]. -/
def clampPx (v lo hi : ℤ) : ℤ := max lo (min v hi)

/-- screenshotter.to_px_rect, faithful to the source: the first corner is
    mapped relative to the clip origin, the second corner relative to the
    clip's far corner (clip.x1, clip.y1), both scaled, truncated and
    clamped to the image bounds. -/
def to_px_rect (clip : BBox) (scale : ℚ) (imgW imgH : ℤ) (r : BBox) :
    ℤ × ℤ × ℤ × ℤ :=
  let x0 := pyInt ((r.x0 - clip.x0) * scale)
  let y0 := pyInt ((r.top - clip.top) * scale)
  let x1 := pyInt ((r.x1 - clip.x1) * scale)
  let y1 := pyInt ((r.bottom - clip.bottom) * scale)
  (clampPx x0 0 (imgW - 1), clampPx y0 0 (imgH - 1),
   clampPx x1 0 (imgW - 1), clampPx y1 0 (imgH - 1))

/-- Follows the spec's words (claim C9): every corner equal to (point
    coordinate − clip origin) × scale, truncated and clamped to the
    image bounds. -/
def to_px_rect_specced (clip : BBox) (scale : ℚ) (imgW imgH : ℤ) (r : BBox) :
    ℤ × ℤ × ℤ × ℤ :=
  let x0 := pyInt ((r.x0 - clip.x0) * scale)
  let y0 := pyInt ((r.top - clip.top) * scale)
  let x1 := pyInt ((r.x1 - clip.x0) * scale)
  let y1 := pyInt ((r.bottom - clip.top) * scale)
  (clampPx x0 0 (imgW - 1), clampPx y0 0 (imgH - 1),
   clampPx x1 0 (imgW - 1), clampPx y1 0 (imgH - 1))

/-- The clip rectangle of render_cell_screenshot: the bbox expanded by
    margin_points, intersected with the page rectangle (0, 0, W, H). -/
def clipRectFor (pageW pageH : ℚ) (bbox : BBox) (margin : ℚ) : BBox :=
  ⟨max 0 (bbox.x0 - margin), max 0 (bbox.top - margin),
   min pageW (bbox.x1 + margin), min pageH (bbox.bottom + margin)⟩

/-- Follows the spec's words (claim C5): the union of the consumed token
    boxes — componentwise min of x0/top, max of x1/bottom. -/
def runUnionBBoxSpecced (run : List Word) : BBox :=
  match run with
  | [] => ⟨0, 0, 0, 0⟩
  | u :: us =>
    us.foldl (fun b v => ⟨min b.x0 v.x0, min b.top v.top,
                          max b.x1 v.x1, max b.bottom v.bottom⟩)
      ⟨u.x0, u.top, u.x1, u.bottom⟩

/-! ### Concrete fixtures used by counterexamples and witnesses -/

/-- External-library stub: identity transliteration, constant score 0. -/
def extZero : Ext := ⟨id, fun _ _ => 0⟩

/-- External-library stub with a constant fuzzy score of 85. -/
def ext85 : Ext := ⟨id, fun _ _ => 85⟩

/-- A label bounding box used by the fixtures. -/
def boxA : BBox := ⟨10, 10, 30, 20⟩

/-- A page whose only content is the line "beta 7". -/
def pageBeta : Page :=
  { text := "beta 7"
    searchHits := fun t => if t = "beta" then [boxA] else []
    words := []
    cropText := fun _ _ _ _ => "beta 7"
    width := 100
    height := 100 }

/-- A page whose only content is the line "alpha 9". -/
def pageAlpha : Page :=
  { text := "alpha 9"
    searchHits := fun t => if t = "alpha" then [boxA] else []
    words := []
    cropText := fun _ _ _ _ => "alpha 9"
    width := 100
    height := 100 }

/-- A metric with two candidate phrases, in listed order. -/
def metricAB : Metric := ⟨"metric_a", ["alpha", "beta"], none⟩

/-- A page whose unit-detection crop band reads "in trillions". -/
def pageTrillions : Page :=
  { text := ""
    searchHits := fun _ => []
    words := []
    cropText := fun _ _ _ _ => "in trillions"
    width := 100
    height := 100 }

/-- Another label box, used by witnesses. -/
def boxB : BBox := ⟨0, 70, 5, 80⟩

/-- First counterexample word: numeric token "1" at (0,10)-(5,12). -/
def cexW1 : Word := ⟨"1", 0, 10, 5, 12⟩

/-- Second counterexample word: numeric token "2" with a smaller top and a
    smaller right edge than the first. -/
def cexW2 : Word := ⟨"2", 6, 0, 4, 1⟩

end FinScraper

namespace FinScraper

/-- C2: the value normalizer strips thousands commas, converts an outer
    parenthesis pair to a leading minus, strips dollar and percent signs,
    and parses: "(1,234.5)" to -1234.5, "1,234" to 1234.0, "99%" to 99.0,
    "$2,500" to 2500.0 and "(512)" to -512.0. -/
theorem C2_normalizer_correct :
    _clean_number_string "(1,234.5)" = some (-1234.5 : ℚ) ∧
    _clean_number_string "1,234" = some 1234 ∧
    _clean_number_string "99%" = some 99 ∧
    _clean_number_string "$2,500" = some 2500 ∧
    _clean_number_string "(512)" = some (-512) := by
  decide

/-- C7: unit scaling multiplies the parsed value by the detected unit's
    factor (thousands 10^3, millions 10^6, billions 10^9) and leaves it
    unchanged when no unit was detected. -/
theorem C7_unit_scaling (v : ℚ) :
    normalize_value_by_units v (some "thousands") = v * 1000 ∧
    normalize_value_by_units v (some "millions") = v * 1000000 ∧
    normalize_value_by_units v (some "billions") = v * 1000000000 ∧
    normalize_value_by_units v none = v := by
  refine ⟨?_, ?_, ?_, rfl⟩ <;> simp [normalize_value_by_units]

/-- C8: for every match provenance, raw value text and combination of
    detected unit and currency bonuses, both confidence scorers stay in
    the closed interval [0, 1]. -/
theorem C8_confidence_bounds (pattern raw_value text : String) (match_pos : ℕ)
    (bbox : Option BBox) :
    0 ≤ _calculate_confidence pattern raw_value text match_pos ∧
    _calculate_confidence pattern raw_value text match_pos ≤ 1 ∧
    0 ≤ mvp_confidence bbox ∧ mvp_confidence bbox ≤ 1 := by
  refine ⟨?_, ?_, ?_, ?_⟩
  · unfold _calculate_confidence
    split_ifs <;> norm_num [le_min_iff]
  · unfold _calculate_confidence
    split_ifs <;> exact min_le_left _ _
  · unfold mvp_confidence
    split_ifs <;> norm_num
  · unfold mvp_confidence
    split_ifs <;> norm_num

/-- C9: the renderer's point-to-pixel transform maps the highlight's
    second corner relative to the clip's far corner instead of the clip
    origin: for bbox (100,100,200,150), margin 8 and scale 2 on a
    595 x 842 page the clip is (92,92,208,158) and the code draws
    (16,16,0,0) where the documented transform gives (16,16,216,116). -/
theorem C9_highlight_transform_bug :
    clipRectFor 595 842 ⟨100, 100, 200, 150⟩ 8 = ⟨92, 92, 208, 158⟩ ∧
    to_px_rect ⟨92, 92, 208, 158⟩ 2 232 132 ⟨100, 100, 200, 150⟩ = (16, 16, 0, 0) ∧
    to_px_rect_specced ⟨92, 92, 208, 158⟩ 2 232 132 ⟨100, 100, 200, 150⟩ =
      (16, 16, 216, 116) ∧
    ((16, 16, 0, 0) : ℤ × ℤ × ℤ × ℤ) ≠ (16, 16, 216, 116) := by
  refine ⟨by decide, ?_, ?_, by decide⟩ <;>
    norm_num [to_px_rect, to_px_rect_specced, pyInt, clampPx]

/-- Default-aware last element of a cons: the head becomes the new
    default. -/
theorem getLastD_cons {α : Type} : ∀ (l : List α) (a d : α),
    (a :: l).getLast?.getD d = l.getLast?.getD a
  | [], _, _ => rfl
  | b :: t, a, d => by
    rw [List.getLast?_cons_cons, getLastD_cons t b d, getLastD_cons t b a]

/-- The head of dropWhile fails the predicate. -/
theorem head_dropWhile_false {α : Type} (p : α → Bool) :
    ∀ (l : List α) (v : α), (l.dropWhile p).head? = some v → p v = false
  | [], v, h => by simp [List.dropWhile] at h
  | a :: t, v, h => by
    rw [List.dropWhile_cons] at h
    by_cases hp : p a = true
    · exact head_dropWhile_false p t v (by simpa [hp] using h)
    · rw [if_neg hp] at h
      simp only [List.head?_cons, Option.some.injEq] at h
      subst h
      simpa using hp

/-- Closed form of the greedy consumption loop of join_numeric_sequence:
    it consumes exactly the numeric-like prefix, joins its texts after the
    accumulated parts, keeps the start coordinates, and combines the last
    right edge and the running maximum bottom over the prefix. -/
theorem joinLoop_spec (x0 top : ℚ) :
    ∀ (l : List Word) (lastRight bottom : ℚ) (parts : List String),
      joinLoop x0 top lastRight bottom parts l =
        (joinSpace (parts.reverse ++
            ((l.takeWhile fun u => is_numeric_token u.text).map Word.text)),
         ⟨x0, top,
          ((((l.takeWhile fun u => is_numeric_token u.text).map Word.x1).getLast?).getD
            lastRight),
          (l.takeWhile fun u => is_numeric_token u.text).foldl
            (fun b u => max b u.bottom) bottom⟩)
  | [], lr, bot, parts => by simp [joinLoop]
  | u :: us, lr, bot, parts => by
    by_cases h : is_numeric_token u.text = true
    · rw [joinLoop, if_pos h, joinLoop_spec x0 top us u.x1 (max bot u.bottom)
        (u.text :: parts)]
      simp [List.takeWhile_cons, h, getLastD_cons]
    · rw [joinLoop, if_neg h]
      simp only [List.takeWhile_cons]
      rw [if_neg h]
      simp

/-- C5 counterexample: for two consumed numeric tokens "1" at
    (0,10,5,12) and "2" at (6,0,4,1), the run's bounding box keeps the
    first token's top (10) and the last token's right edge (4), while the
    union of the consumed boxes has top 0 and right edge 5. -/
theorem C5_counterexample :
    join_numeric_sequence [cexW1, cexW2] 0 = ("1 2", ⟨0, 10, 4, 12⟩) ∧
    runUnionBBoxSpecced [cexW1, cexW2] = ⟨0, 0, 5, 12⟩ ∧
    (⟨0, 10, 4, 12⟩ : BBox) ≠ ⟨0, 0, 5, 12⟩ := by
  refine ⟨by decide, by decide, by decide⟩

/-- C5 amended: once a first numeric token is found at the start index,
    the value run consumes the maximal numeric-like prefix greedily (the
    token after the run, if any, is not numeric-like); the returned text
    is the space-joined run text, and the returned box keeps the first
    token's x0 and top, takes the last consumed token's x1 as right edge,
    and the maximum consumed bottom as bottom. -/
theorem C5_greedy_run_and_box (ws : List Word) (i : ℕ) (w : Word) (rest : List Word)
    (hdrop : ws.drop i = w :: rest) (hnum : is_numeric_token w.text = true) :
    ((w :: rest).takeWhile fun u => is_numeric_token u.text) ≠ [] ∧
    (((w :: rest).takeWhile fun u => is_numeric_token u.text) ++
        ((w :: rest).dropWhile fun u => is_numeric_token u.text)) = w :: rest ∧
    (∀ u ∈ (w :: rest).takeWhile fun u => is_numeric_token u.text,
        is_numeric_token u.text = true) ∧
    (∀ v, ((w :: rest).dropWhile fun u => is_numeric_token u.text).head? = some v →
        is_numeric_token v.text = false) ∧
    join_numeric_sequence ws i =
      (joinSpace (((w :: rest).takeWhile fun u => is_numeric_token u.text).map Word.text),
       ⟨w.x0, w.top,
        (((((w :: rest).takeWhile fun u => is_numeric_token u.text).map Word.x1).getLast?).getD
          w.x1),
        ((w :: rest).takeWhile fun u => is_numeric_token u.text).foldl
          (fun b u => max b u.bottom) w.bottom⟩) := by
  refine ⟨?_, List.takeWhile_append_dropWhile _ _, ?_, ?_, ?_⟩
  · simp [List.takeWhile_cons, hnum]
  · intro u hu
    simpa using List.mem_takeWhile_imp hu
  · intro v hv
    exact head_dropWhile_false _ _ v hv
  · have hjoin : join_numeric_sequence ws i = joinLoop w.x0 w.top w.x1 w.bottom [] (w :: rest) := by
      unfold join_numeric_sequence
      rw [hdrop]
    rw [hjoin, joinLoop_spec w.x0 w.top (w :: rest) w.x1 w.bottom []]
    simp

/-- C5 witness: the amended theorem applied at the concrete two-token
    run, evaluated. -/
theorem C5_greedy_run_witness :
    join_numeric_sequence [cexW1, cexW2] 0 =
      (joinSpace ((([cexW1, cexW2].takeWhile fun u => is_numeric_token u.text).map Word.text)),
       ⟨cexW1.x0, cexW1.top,
        ((((([cexW1, cexW2].takeWhile fun u => is_numeric_token u.text).map Word.x1).getLast?).getD
          cexW1.x1)),
        ([cexW1, cexW2].takeWhile fun u => is_numeric_token u.text).foldl
          (fun b u => max b u.bottom) cexW1.bottom⟩) :=
  (C5_greedy_run_and_box [cexW1, cexW2] 0 cexW1 [cexW2] rfl (by decide)).2.2.2.2

/-- Dropping i elements and seeing a cons pins down the element at index
    i and the remaining drop. -/
theorem get_of_drop_cons {α : Type} :
    ∀ (l : List α) (i : ℕ) (a : α) (t : List α),
      l.drop i = a :: t → l.get? i = some a ∧ l.drop (i + 1) = t
  | [], i, a, t, h => by simp at h
  | x :: xs, 0, a, t, h => by
    simp only [List.drop_zero] at h
    cases h
    exact ⟨rfl, by simp⟩
  | x :: xs, i + 1, a, t, h => by
    simpa using get_of_drop_cons xs i a t (by simpa using h)

/-- If no word at or after index i qualifies (same-line band, right of
    the anchor, numeric-like), the scan returns none. -/
theorem scanVal_none (all : List Word) (anchor : Word) (ytol : ℚ) :
    ∀ (l : List Word) (i : ℕ), all.drop i = l →
      (∀ j w, i ≤ j → all.get? j = some w →
        ¬(|w.top - anchor.top| ≤ ytol ∧ anchor.x1 ≤ w.x0 ∧
          is_numeric_token w.text = true)) →
      scanVal all anchor ytol i l = none
  | [], _, _, _ => rfl
  | w :: l', i, hdrop, hnone => by
    obtain ⟨hw, hdrop'⟩ := get_of_drop_cons all i w l' hdrop
    have hnw := hnone i w (le_refl i) hw
    by_cases hc : |w.top - anchor.top| ≤ ytol ∧ anchor.x1 ≤ w.x0
    · by_cases hn : is_numeric_token w.text = true
      · exact absurd ⟨hc.1, hc.2, hn⟩ hnw
      · simp only [scanVal]
        rw [if_pos hc, if_neg hn]
        exact scanVal_none all anchor ytol l' (i + 1) hdrop'
          fun j v hj hv => hnone j v (le_trans (Nat.le_succ i) hj) hv
    · simp only [scanVal]
      rw [if_neg hc]
      exact scanVal_none all anchor ytol l' (i + 1) hdrop'
        fun j v hj hv => hnone j v (le_trans (Nat.le_succ i) hj) hv

/-- The scan returns the joined numeric sequence at the first qualifying
    index. -/
theorem scanVal_first (all : List Word) (anchor : Word) (ytol : ℚ) :
    ∀ (l : List Word) (i : ℕ), all.drop i = l →
      ∀ (j : ℕ) (w : Word), i ≤ j → all.get? j = some w →
        (|w.top - anchor.top| ≤ ytol ∧ anchor.x1 ≤ w.x0 ∧
          is_numeric_token w.text = true) →
        (∀ k v, i ≤ k → k < j → all.get? k = some v →
          ¬(|v.top - anchor.top| ≤ ytol ∧ anchor.x1 ≤ v.x0 ∧
            is_numeric_token v.text = true)) →
        scanVal all anchor ytol i l = some (join_numeric_sequence all j)
  | [], i, hdrop, j, w, hij, hw, _, _ => by
    have hlen : all.length ≤ i := by
      have hcl := congrArg List.length hdrop
      simp only [List.length_drop, List.length_nil] at hcl
      omega
    rw [List.get?_eq_none.mpr (le_trans hlen hij)] at hw
    cases hw
  | w0 :: l', i, hdrop, j, w, hij, hw, hq, hmin => by
    obtain ⟨hw0, hdrop'⟩ := get_of_drop_cons all i w0 l' hdrop
    by_cases hc : |w0.top - anchor.top| ≤ ytol ∧ anchor.x1 ≤ w0.x0
    · by_cases hn : is_numeric_token w0.text = true
      · have hji : j = i := by
          by_contra hne
          exact hmin i w0 (le_refl i) (lt_of_le_of_ne hij (Ne.symm hne)) hw0
            ⟨hc.1, hc.2, hn⟩
        subst hji
        simp only [scanVal]
        rw [if_pos hc, if_pos hn]
      · have hne : i < j := by
          rcases Nat.lt_or_ge i j with h | h
          · exact h
          · have : j = i := le_antisymm (le_trans h (le_refl i)) hij
            subst this
            rw [hw0] at hw
            cases hw
            exact absurd hq.2.2 hn
        simp only [scanVal]
        rw [if_pos hc, if_neg hn]
        exact scanVal_first all anchor ytol l' (i + 1) hdrop' j w hne hw hq
          fun k v hk hkj hv => hmin k v (le_trans (Nat.le_succ i) hk) hkj hv
    · have hne : i < j := by
        rcases Nat.lt_or_ge i j with h | h
        · exact h
        · have : j = i := le_antisymm h hij
          subst this
          rw [hw0] at hw
          cases hw
          exact absurd ⟨hq.1, hq.2.1⟩ hc
      simp only [scanVal]
      rw [if_neg hc]
      exact scanVal_first all anchor ytol l' (i + 1) hdrop' j w hne hw hq
        fun k v hk hkj hv => hmin k v (le_trans (Nat.le_succ i) hk) hkj hv

/-- C3: the value associator anchors on the span's last token, uses
    y_tol = max(2, 1.5 x anchor height), and selects the first later word
    whose left edge is at or right of the anchor's right edge, whose top
    is within y_tol of the anchor's top, and whose text is numeric-like;
    with no such word (in particular with no word after the span at all)
    it returns none, and it is a total function so no error is raised. -/
theorem C3_value_association :
    (∀ (ws : List Word) (s e : ℕ), ws.length ≤ e →
      find_value_near_phrase ws (s, e) = none) ∧
    (∀ (ws : List Word) (s e : ℕ) (anchor : Word), 1 ≤ e → e < ws.length →
      ws.get? (e - 1) = some anchor →
      ((∀ j w, e ≤ j → ws.get? j = some w →
          ¬(|w.top - anchor.top| ≤ max 2 ((anchor.bottom - anchor.top) * 1.5) ∧
            anchor.x1 ≤ w.x0 ∧ is_numeric_token w.text = true)) →
        find_value_near_phrase ws (s, e) = none) ∧
      (∀ j w, e ≤ j → ws.get? j = some w →
        (|w.top - anchor.top| ≤ max 2 ((anchor.bottom - anchor.top) * 1.5) ∧
          anchor.x1 ≤ w.x0 ∧ is_numeric_token w.text = true) →
        (∀ k v, e ≤ k → k < j → ws.get? k = some v →
          ¬(|v.top - anchor.top| ≤ max 2 ((anchor.bottom - anchor.top) * 1.5) ∧
            anchor.x1 ≤ v.x0 ∧ is_numeric_token v.text = true)) →
        find_value_near_phrase ws (s, e) = some (join_numeric_sequence ws j))) := by
  constructor
  · intro ws s e h
    unfold find_value_near_phrase
    rw [if_pos h]
  · intro ws s e anchor he hlt hanchor
    have hbody : find_value_near_phrase ws (s, e) =
        scanVal ws anchor (max 2 ((anchor.bottom - anchor.top) * 1.5)) e (ws.drop e) := by
      unfold find_value_near_phrase
      rw [if_neg (not_le.mpr hlt), if_neg (by omega : ¬ e = 0), hanchor]
    constructor
    · intro hnone
      rw [hbody]
      exact scanVal_none ws anchor _ (ws.drop e) e rfl hnone
    · intro j w hej hw hq hmin
      rw [hbody]
      exact scanVal_first ws anchor _ (ws.drop e) e rfl j w hej hw hq hmin

/-- C3 witness: on a two-word document ["lbl" at (0,10,5,12), "7" at
    (6,10,9,12)] with the phrase span (0,1), the first qualifying word is
    the numeric token "7" and the associator returns it. -/
theorem C3_value_association_witness :
    find_value_near_phrase [⟨"lbl", 0, 10, 5, 12⟩, ⟨"7", 6, 10, 9, 12⟩] (0, 1) =
      some ("7", ⟨6, 10, 9, 12⟩) := by
  have h := (C3_value_association.2 [⟨"lbl", 0, 10, 5, 12⟩, ⟨"7", 6, 10, 9, 12⟩]
      0 1 ⟨"lbl", 0, 10, 5, 12⟩ (by decide) (by decide) (by decide)).2
      1 ⟨"7", 6, 10, 9, 12⟩ (by decide) (by decide) (by decide)
      (fun k v hk hlt hv => by omega)
  exact h.trans (by decide)

/-- C6 counterexample: a crop band reading "in trillions" carries a
    trillions cue (it matches the sibling module's trillions keyword
    group), yet detect_units_near reports no unit at all — the claim
    predicts units = trillions. -/
theorem C6_counterexample :
    rSearch trillionsPatI "in trillions" = true ∧
    detect_units_near pageTrillions boxA = none ∧
    (none : Option String) ≠ some "trillions" := by
  decide

/-- C6 amended: detect_units_near crops the window (left margin 150pt,
    band 60pt above the label), lowercases its text, and tests the
    ordered keyword groups thousands, millions, billions and percent,
    returning the first match; there is no trillions group, so the result
    is never "trillions". -/
theorem C6_amended_unit_groups (page : Page) (box : BBox) :
    (detect_units_near page box ≠ some "trillions") ∧
    ∀ txt, txt = pyLower (page.cropText (max 0 (box.x0 - 150)) (max 0 (box.top - 60))
        (min page.width (box.x1 + 150)) box.top) →
      (txt ≠ "" → rSearch thousandsPat txt = true →
        detect_units_near page box = some "thousands") ∧
      (txt ≠ "" → rSearch thousandsPat txt = false → rSearch millionsPat txt = true →
        detect_units_near page box = some "millions") ∧
      (txt ≠ "" → rSearch thousandsPat txt = false → rSearch millionsPat txt = false →
        rSearch billionsPat txt = true → detect_units_near page box = some "billions") ∧
      (txt ≠ "" → rSearch thousandsPat txt = false → rSearch millionsPat txt = false →
        rSearch billionsPat txt = false → strContains txt "%" = true →
        detect_units_near page box = some "%") ∧
      (txt = "" ∨ (rSearch thousandsPat txt = false ∧ rSearch millionsPat txt = false ∧
          rSearch billionsPat txt = false ∧ strContains txt "%" = false) →
        detect_units_near page box = none) := by
  constructor
  · simp only [detect_units_near]
    split_ifs <;> simp
  · intro txt htxt
    refine ⟨?_, ?_, ?_, ?_, ?_⟩ <;> simp only [detect_units_near] <;> rw [← htxt]
    · intro h1 h2
      rw [if_neg h1, if_pos h2]
    · intro h1 h2 h3
      rw [if_neg h1, if_neg (by simp [h2]), if_pos h3]
    · intro h1 h2 h3 h4
      rw [if_neg h1, if_neg (by simp [h2]), if_neg (by simp [h3]), if_pos h4]
    · intro h1 h2 h3 h4 h5
      rw [if_neg h1, if_neg (by simp [h2]), if_neg (by simp [h3]),
        if_neg (by simp [h4]), if_pos h5]
    · rintro (h1 | ⟨h2, h3, h4, h5⟩)
      · rw [if_pos h1]
      · by_cases h1 : txt = ""
        · rw [if_pos h1]
        · rw [if_neg h1, if_neg (by simp [h2]), if_neg (by simp [h3]),
            if_neg (by simp [h4]), if_neg (by simp [h5])]

/-- C6 witness: the amended theorem applied to the concrete trillions
    page, where none of the four cue groups matches. -/
theorem C6_amended_witness : detect_units_near pageTrillions boxB = none :=
  (((C6_amended_unit_groups pageTrillions boxB).2 _ rfl).2.2.2.2)
    (Or.inr (by refine ⟨?_, ?_, ?_, ?_⟩ <;> decide))

/-- A page whose value line contains the unbalanced token "(512". -/
def pageParen : Page :=
  { text := "cash (512"
    searchHits := fun t => if t = "cash" then [boxA] else []
    words := []
    cropText := fun _ _ _ _ => "cash (512"
    width := 100
    height := 100 }

/-- A metric whose only candidate phrase is "cash". -/
def metricCash : Metric := ⟨"cash_metric", ["cash"], none⟩

/-- C10: the numeric-token predicate accepts "(512" (unmatched leading
    parenthesis) while the normalizer returns no number for it, and
    whenever the selected raw value fails to parse, the term under
    consideration yields no data point (the total function returns none
    and the orchestrator's search moves on). -/
theorem C10_unparseable_candidate_discarded (ext : Ext) (bank : Option String)
    (year : Option ℤ) (page : Page) (page_num : ℕ) (metric : Metric) (term : String)
    (tb : BBox) (vs : String)
    (htb : termBoxFor ext page term = some tb)
    (hvs : rawValueFor page tb = some vs)
    (hclean : _clean_number_string vs = none) :
    is_numeric_token "(512" = true ∧ _clean_number_string "(512" = none ∧
    processTerm ext bank year page page_num metric term = none := by
  refine ⟨by decide, by decide, ?_⟩
  unfold processTerm
  by_cases hc : coarsePhraseSearch page.text term = true
  · rw [if_pos hc, htb]
    simp only [Option.some_bind]
    rw [hvs]
    simp only [Option.some_bind]
    rw [hclean]
    rfl
  · rw [if_neg hc]

/-- C10 witness: on the concrete page "cash (512", the first number-regex
    hit is "(512", which the normalizer rejects, so the term produces no
    data point and no error. -/
theorem C10_unparseable_candidate_witness :
    processTerm extZero none none pageParen 0 metricCash "cash" = none :=
  (C10_unparseable_candidate_discarded extZero none none pageParen 0 metricCash
    "cash" boxA "(512" (by decide) (by decide) (by decide)).2.2

/-- The best-tracking fold of extractOne: the result is the incumbent or
    a scored choice from the list, its score dominates the incumbent's
    and every listed choice's score. -/
theorem extractOneAux_spec (scorer : String → String → ℕ) (q : String) :
    ∀ (cs : List String) (i : ℕ) (best : String × ℕ × ℕ),
      (extractOneAux scorer q i best cs = best ∨
        ∃ k, cs.get? k = some (extractOneAux scorer q i best cs).1 ∧
          (extractOneAux scorer q i best cs).2.1 =
            scorer q (extractOneAux scorer q i best cs).1 ∧
          (extractOneAux scorer q i best cs).2.2 = i + k) ∧
      best.2.1 ≤ (extractOneAux scorer q i best cs).2.1 ∧
      ∀ k c, cs.get? k = some c → scorer q c ≤ (extractOneAux scorer q i best cs).2.1
  | [], i, best => by simp [extractOneAux]
  | c :: cs', i, best => by
    simp only [extractOneAux]
    by_cases hlt : best.2.1 < scorer q c
    · rw [if_pos hlt]
      obtain ⟨h1, h2, h3⟩ := extractOneAux_spec scorer q cs' (i + 1) (c, scorer q c, i)
      refine ⟨?_, le_trans (le_of_lt hlt) h2, ?_⟩
      · rcases h1 with h1 | ⟨k, hk1, hk2, hk3⟩
        · right
          refine ⟨0, ?_, ?_, ?_⟩ <;> rw [h1] <;> rfl

        · right
          exact ⟨k + 1, by simpa using hk1, hk2, by rw [hk3]; omega⟩
      · intro k c' hk
        cases k with
        | zero =>
          simp only [List.get?_cons_zero, Option.some.injEq] at hk
          subst hk
          exact h2
        | succ k' => exact h3 k' c' (by simpa using hk)
    · rw [if_neg hlt]
      obtain ⟨h1, h2, h3⟩ := extractOneAux_spec scorer q cs' (i + 1) best
      refine ⟨?_, h2, ?_⟩
      · rcases h1 with h1 | ⟨k, hk1, hk2, hk3⟩
        · left
          exact h1
        · right
          exact ⟨k + 1, by simpa using hk1, hk2, by rw [hk3]; omega⟩
      · intro k c' hk
        cases k with
        | zero =>
          simp only [List.get?_cons_zero, Option.some.injEq] at hk
          subst hk
          exact le_trans (not_lt.mp hlt) h2
        | succ k' => exact h3 k' c' (by simpa using hk)

/-- rapidfuzz extractOne model: the returned triple is a listed choice at
    its index, carries its own score, and that score is maximal. -/
theorem extractOne_spec (scorer : String → String → ℕ) (q : String)
    (choices : List String) (c : String) (s i : ℕ)
    (h : extractOne scorer q choices = some (c, s, i)) :
    choices.get? i = some c ∧ s = scorer q c ∧
      ∀ j cj, choices.get? j = some cj → scorer q cj ≤ s := by
  cases choices with
  | nil => simp [extractOne] at h
  | cons c0 cs =>
    simp only [extractOne, Option.some.injEq] at h
    obtain ⟨h1, h2, h3⟩ := extractOneAux_spec scorer q cs 1 (c0, scorer q c0, 0)
    rw [h] at h1 h2 h3
    rcases h1 with h1 | ⟨k, hk1, hk2, hk3⟩
    · obtain ⟨hc, hs, hi⟩ : c = c0 ∧ s = scorer q c0 ∧ i = 0 := by
        have h1' := h1
        rw [Prod.ext_iff] at h1'
        exact ⟨h1'.1, (Prod.ext_iff.mp h1'.2).1, (Prod.ext_iff.mp h1'.2).2⟩
      subst hc
      subst hs
      subst hi
      refine ⟨rfl, rfl, ?_⟩
      intro j cj hj
      cases j with
      | zero =>
        simp only [List.get?_cons_zero, Option.some.injEq] at hj
        subst hj
        exact le_refl _
      | succ j' => exact h3 j' cj (by simpa using hj)
    · have hi : i = 1 + k := hk3
      refine ⟨?_, hk2, ?_⟩
      · rw [hi, show 1 + k = k + 1 from by omega]
        simpa using hk1
      · intro j cj hj
        cases j with
        | zero =>
          simp only [List.get?_cons_zero, Option.some.injEq] at hj
          subst hj
          exact h2
        | succ j' => exact h3 j' cj (by simpa using hj)

/-- fuzzy_label_match, successful case: the returned label is a listed
    candidate whose normalized text attains the maximal token-sort score
    against the normalized query label, and the returned score is that
    maximum. -/
theorem fuzzy_label_match_spec (ext : Ext) (label : String)
    (candidates : List String) (best : String) (score : ℕ)
    (h : fuzzy_label_match ext label candidates = (some best, score)) :
    ∃ i, candidates.get? i = some best ∧
      score = ext.tokenSortScore (normalize_label ext label) (normalize_label ext best) ∧
      ∀ j cj, candidates.get? j = some cj →
        ext.tokenSortScore (normalize_label ext label) (normalize_label ext cj) ≤ score := by
  unfold fuzzy_label_match at h
  by_cases hg : normalize_label ext label = "" ∨ candidates.isEmpty = true
  · rw [if_pos (by simpa using hg)] at h
    simp at h
  · rw [if_neg (by simpa using hg)] at h
    cases hE : extractOne ext.tokenSortScore (normalize_label ext label)
        (candidates.map (normalize_label ext)) with
    | none =>
      rw [hE] at h
      simp at h
    | some trip =>
      obtain ⟨mt, sc, idx⟩ := trip
      rw [hE] at h
      simp only [Prod.mk.injEq, Option.some.injEq] at h
      obtain ⟨hbest, hscore⟩ := h
      obtain ⟨hidx, hsc, hall⟩ := extractOne_spec _ _ _ mt sc idx hE
      rw [List.get?_map] at hidx
      cases hcI : candidates.get? idx with
      | none =>
        rw [hcI] at hidx
        exact absurd hidx (by simp)
      | some cI =>
        rw [hcI] at hidx
        simp only [Option.map_some', Option.some.injEq] at hidx
        have hbestI : best = cI := by
          rw [← hbest]
          have hgd : candidates.getD idx "" = (candidates.get? idx).getD "" := rfl
          rw [hgd, hcI]
          rfl
        subst hbestI
        refine ⟨idx, hcI, ?_, ?_⟩
        · rw [← hscore, hsc, hidx]
        · intro j cj hcj
          have hmapped : (candidates.map (normalize_label ext)).get? j =
              some (normalize_label ext cj) := by
            rw [List.get?_map, hcj]
            rfl
          have := hall j _ hmapped
          rw [← hscore]
          exact this

/-- A page with no exact search hits whose word list holds the single
    token "netincome". -/
def pageFuzzy : Page :=
  { text := "net income 5"
    searchHits := fun _ => []
    words := [⟨"netincome", 1, 2, 3, 4⟩]
    cropText := fun _ _ _ _ => ""
    width := 10
    height := 10 }

/-- C4: the fuzzy path is reachable only when the coarse whole-page
    search matched (otherwise the term yields none) and the exact search
    returned no hit (otherwise the first hit is used); it scores each
    individual token's normalized text against the normalized phrase,
    accepts the best-scoring token exactly when its score is at least 80
    (the accepted match being a single token's box), and yields no match
    otherwise. -/
theorem C4_fuzzy_fallback (ext : Ext) (bank : Option String) (year : Option ℤ)
    (page : Page) (page_num : ℕ) (metric : Metric) (term : String) :
    (coarsePhraseSearch page.text term = false →
      processTerm ext bank year page page_num metric term = none) ∧
    (∀ hit rest, page.searchHits term = hit :: rest →
      termBoxFor ext page term = some hit) ∧
    (page.searchHits term = [] → page.words = [] →
      termBoxFor ext page term = none) ∧
    (∀ best score, page.searchHits term = [] → page.words ≠ [] →
      fuzzy_label_match ext term (page.words.map Word.text) = (some best, score) →
      ((score < 80 → termBoxFor ext page term = none) ∧
       (80 ≤ score → ∀ w, page.words.find? (fun x => x.text = best) = some w →
         termBoxFor ext page term = some ⟨w.x0, w.top, w.x1, w.bottom⟩) ∧
       ∃ i, (page.words.map Word.text).get? i = some best ∧
         score = ext.tokenSortScore (normalize_label ext term) (normalize_label ext best) ∧
         ∀ j cj, (page.words.map Word.text).get? j = some cj →
           ext.tokenSortScore (normalize_label ext term) (normalize_label ext cj) ≤ score)) ∧
    (∀ score, page.searchHits term = [] → page.words ≠ [] →
      fuzzy_label_match ext term (page.words.map Word.text) = (none, score) →
      termBoxFor ext page term = none) := by
  refine ⟨?_, ?_, ?_, ?_, ?_⟩
  · intro hc
    unfold processTerm
    rw [if_neg (by simp [hc])]
  · intro hit rest hhit
    unfold termBoxFor
    rw [hhit]
  · intro hhits hwords
    unfold termBoxFor
    rw [hhits]
    dsimp only
    rw [if_pos (by simp [hwords])]
  · intro best score hhits hwords hfuzzy
    refine ⟨?_, ?_, fuzzy_label_match_spec ext term _ best score hfuzzy⟩
    · intro hs
      unfold termBoxFor
      rw [hhits]
      dsimp only
      rw [if_neg (by simpa [List.isEmpty_iff] using hwords), hfuzzy]
      dsimp only
      rw [if_pos hs]
    · intro hs w hfind
      unfold termBoxFor
      rw [hhits]
      dsimp only
      rw [if_neg (by simpa [List.isEmpty_iff] using hwords), hfuzzy]
      dsimp only
      rw [if_neg (not_lt.mpr hs), hfind]
  · intro score hhits hwords hfuzzy
    unfold termBoxFor
    rw [hhits]
    dsimp only
    rw [if_neg (by simpa [List.isEmpty_iff] using hwords), hfuzzy]

/-- C4 witness: with an external scorer returning 85, the fuzzy fallback
    on the hit-less page accepts the single token "netincome" and returns
    exactly that token's box. -/
theorem C4_fuzzy_fallback_witness :
    termBoxFor ext85 pageFuzzy "net income" = some ⟨1, 2, 3, 4⟩ :=
  ((C4_fuzzy_fallback ext85 none none pageFuzzy 0 metricCash "net income").2.2.2.1
    "netincome" 85 rfl (by decide) (by decide)).2.1 (by decide)
    ⟨"netincome", 1, 2, 3, 4⟩ (by decide)

/-- A successful term yields a data point named after its metric. -/
theorem processTerm_name {ext : Ext} {bank : Option String} {year : Option ℤ}
    {page : Page} {page_num : ℕ} {metric : Metric} {term : String} {d : DataPoint}
    (h : processTerm ext bank year page page_num metric term = some d) :
    d.metric_name = metric.standard_name := by
  unfold processTerm at h
  by_cases hc : coarsePhraseSearch page.text term = true
  · rw [if_pos hc] at h
    rcases Option.bind_eq_some.mp h with ⟨tb, htb, h⟩
    rcases Option.bind_eq_some.mp h with ⟨vs, hvs, h⟩
    rcases Option.bind_eq_some.mp h with ⟨v, hv, h⟩
    simp only [Option.some.injEq] at h
    subst h
    rfl
  · rw [if_neg hc] at h
    cases h

/-- The term loop inherits the metric name of its result. -/
theorem findTermHit_name (ext : Ext) (bank : Option String) (year : Option ℤ)
    (page : Page) (page_num : ℕ) (metric : Metric) :
    ∀ (ts : List String) (d : DataPoint),
      findTermHit ext bank year page page_num metric ts = some d →
      d.metric_name = metric.standard_name
  | [], d, h => by simp [findTermHit] at h
  | t :: ts, d, h => by
    unfold findTermHit at h
    cases hp : processTerm ext bank year page page_num metric t with
    | some d0 =>
      rw [hp] at h
      simp only [Option.some.injEq] at h
      subst h
      exact processTerm_name hp
    | none =>
      rw [hp] at h
      exact findTermHit_name ext bank year page page_num metric ts d h

/-- The page loop inherits the metric name of its result. -/
theorem findMetricAux_name (ext : Ext) (bank : Option String) (year : Option ℤ)
    (metric : Metric) :
    ∀ (k : ℕ) (pl : List Page) (d : DataPoint),
      findMetricAux ext bank year metric k pl = some d →
      d.metric_name = metric.standard_name
  | _, [], d, h => by simp [findMetricAux] at h
  | k, pg :: pl, d, h => by
    unfold findMetricAux at h
    cases hp : findTermHit ext bank year pg k metric metric.search_terms with
    | some d0 =>
      rw [hp] at h
      simp only [Option.some.injEq] at h
      subst h
      exact findTermHit_name ext bank year pg k metric metric.search_terms d0 hp
    | none =>
      rw [hp] at h
      exact findMetricAux_name ext bank year metric (k + 1) pl d h

/-- If every term fails on a page, the term loop yields none. -/
theorem findTermHit_eq_none (ext : Ext) (bank : Option String) (year : Option ℤ)
    (page : Page) (page_num : ℕ) (metric : Metric) :
    ∀ (ts : List String),
      (∀ t term, ts.get? t = some term →
        processTerm ext bank year page page_num metric term = none) →
      findTermHit ext bank year page page_num metric ts = none
  | [], _ => rfl
  | t0 :: ts, hall => by
    unfold findTermHit
    rw [hall 0 t0 rfl]
    exact findTermHit_eq_none ext bank year page page_num metric ts
      fun t term h => hall (t + 1) term (by simpa using h)

/-- The term loop returns the hit of the first succeeding term. -/
theorem findTermHit_first (ext : Ext) (bank : Option String) (year : Option ℤ)
    (page : Page) (page_num : ℕ) (metric : Metric) :
    ∀ (ts : List String) (t : ℕ) (term : String) (d : DataPoint),
      ts.get? t = some term →
      processTerm ext bank year page page_num metric term = some d →
      (∀ t' term', t' < t → ts.get? t' = some term' →
        processTerm ext bank year page page_num metric term' = none) →
      findTermHit ext bank year page page_num metric ts = some d
  | [], t, term, d, hget, _, _ => by simp at hget
  | t0 :: ts, 0, term, d, hget, hd, _ => by
    simp only [List.get?_cons_zero, Option.some.injEq] at hget
    subst hget
    unfold findTermHit
    rw [hd]
  | t0 :: ts, t + 1, term, d, hget, hd, hmin => by
    unfold findTermHit
    rw [hmin 0 t0 (Nat.succ_pos t) rfl]
    exact findTermHit_first ext bank year page page_num metric ts t term d
      (by simpa using hget) hd
      fun t' term' hlt hget' => hmin (t' + 1) term' (by omega) (by simpa using hget')

/-- The page loop returns the hit of the first succeeding page, page
    numbers counted from the starting offset. -/
theorem findMetricAux_first (ext : Ext) (bank : Option String) (year : Option ℤ)
    (metric : Metric) :
    ∀ (pl : List Page) (k p : ℕ) (page : Page) (d : DataPoint),
      pl.get? p = some page →
      findTermHit ext bank year page (k + p) metric metric.search_terms = some d →
      (∀ p' page', p' < p → pl.get? p' = some page' →
        findTermHit ext bank year page' (k + p') metric metric.search_terms = none) →
      findMetricAux ext bank year metric k pl = some d
  | [], k, p, page, d, hget, _, _ => by simp at hget
  | pg :: pl, k, 0, page, d, hget, hd, _ => by
    simp only [List.get?_cons_zero, Option.some.injEq] at hget
    subst hget
    rw [Nat.add_zero] at hd
    unfold findMetricAux
    rw [hd]
  | pg :: pl, k, p + 1, page, d, hget, hd, hmin => by
    unfold findMetricAux
    have h0 := hmin 0 pg (Nat.succ_pos p) rfl
    rw [Nat.add_zero] at h0
    rw [h0]
    refine findMetricAux_first ext bank year metric pl (k + 1) p page d
      (by simpa using hget) ?_ ?_
    · rw [show k + 1 + p = k + (p + 1) from by omega]
      exact hd
    · intro p' page' hlt hget'
      rw [show k + 1 + p' = k + (p' + 1) from by omega]
      exact hmin (p' + 1) page' (by omega) (by simpa using hget')

/-- Metrics whose name differs from nm contribute nothing to the
    nm-filtered output. -/
theorem filter_flatMap_ne (ext : Ext) (pages : List Page) (bank : Option String)
    (year : Option ℤ) :
    ∀ (ms : List Metric) (nm : String),
      (∀ m ∈ ms, m.standard_name ≠ nm) →
      ((ms.flatMap fun m => (findMetricAux ext bank year m 0 pages).toList).filter
        fun x => decide (x.metric_name = nm)) = []
  | [], _, _ => rfl
  | m0 :: ms, nm, hne => by
    rw [List.flatMap_cons, List.filter_append]
    have h1 : (((findMetricAux ext bank year m0 0 pages).toList).filter
        fun x => decide (x.metric_name = nm)) = [] := by
      cases hf : findMetricAux ext bank year m0 0 pages with
      | none => rfl
      | some d =>
        have hd := findMetricAux_name ext bank year m0 0 pages d hf
        simp [Option.toList, List.filter, hd, hne m0 (List.mem_cons_self m0 ms)]
    rw [h1, filter_flatMap_ne ext pages bank year ms nm
      fun m hm => hne m (List.mem_cons_of_mem m0 hm)]
    rfl

/-- With pairwise-distinct schema names, the records filtered to one
    metric's name are exactly that metric's page-loop result. -/
theorem filter_extract_eq (ext : Ext) (pages : List Page) (bank : Option String)
    (year : Option ℤ) :
    ∀ (schema : List Metric) (metric : Metric),
      (schema.map Metric.standard_name).Nodup → metric ∈ schema →
      ((extract_financial_data ext pages schema bank year).filter
        fun x => decide (x.metric_name = metric.standard_name)) =
        (findMetricAux ext bank year metric 0 pages).toList
  | [], metric, _, hm => by simp at hm
  | m0 :: rest, metric, hnd, hm => by
    rw [List.map_cons, List.nodup_cons] at hnd
    unfold extract_financial_data
    rw [List.flatMap_cons, List.filter_append]
    rcases List.mem_cons.mp hm with hm0 | hmr
    · subst hm0
      have h1 : (((findMetricAux ext bank year metric 0 pages).toList).filter
          fun x => decide (x.metric_name = metric.standard_name)) =
          (findMetricAux ext bank year metric 0 pages).toList := by
        cases hf : findMetricAux ext bank year metric 0 pages with
        | none => rfl
        | some d =>
          have hd := findMetricAux_name ext bank year metric 0 pages d hf
          simp [Option.toList, List.filter, hd]
      have h2 : ((rest.flatMap fun m => (findMetricAux ext bank year m 0 pages).toList).filter
          fun x => decide (x.metric_name = metric.standard_name)) = [] := by
        refine filter_flatMap_ne ext pages bank year rest metric.standard_name ?_
        intro m hmr heq
        exact hnd.1 (heq ▸ List.mem_map_of_mem Metric.standard_name hmr)
      rw [h1, h2, List.append_nil]
    · have hne : m0.standard_name ≠ metric.standard_name := by
        intro heq
        exact hnd.1 (heq ▸ List.mem_map_of_mem Metric.standard_name hmr)
      have h1 : (((findMetricAux ext bank year m0 0 pages).toList).filter
          fun x => decide (x.metric_name = metric.standard_name)) = [] := by
        cases hf : findMetricAux ext bank year m0 0 pages with
        | none => rfl
        | some d =>
          have hd := findMetricAux_name ext bank year m0 0 pages d hf
          simp [Option.toList, List.filter, hd, hne]
      rw [h1]
      have h2 := filter_extract_eq ext pages bank year rest metric hnd.2 hmr
      unfold extract_financial_data at h2
      rw [h2]
      rfl

/-- C1 counterexample: one metric with candidate phrases
    ["alpha", "beta"], a first page satisfying only "beta" and a second
    page satisfying only "alpha".  The code (page-major, phrase-minor)
    extracts "beta" on page 1; the claimed phrase-major, page-minor order
    would extract "alpha" on page 2. -/
theorem C1_counterexample :
    (extract_financial_data extZero [pageBeta, pageAlpha] [metricAB] none none).map
        (fun d => (d.source_term_used, d.source_page)) = [("beta", 1)] ∧
    (findMetricPhraseMajorSpecced extZero none none [pageBeta, pageAlpha] metricAB).map
        (fun d => (d.source_term_used, d.source_page)) = some ("alpha", 2) ∧
    (("beta", 1) : String × ℕ) ≠ ("alpha", 2) := by
  exact ⟨by decide, by decide, by decide⟩

/-- C1 amended: the orchestrator iterates page-major, phrase-minor within
    each schema metric; at most one record carries a metric's name
    (distinct schema names assumed), and the record produced for a metric
    is exactly the data point of the first (page, term) pair - in
    lexicographic page-then-term order - whose processing succeeds. -/
theorem C1_first_match_page_major (ext : Ext) (pages : List Page)
    (schema : List Metric) (bank : Option String) (year : Option ℤ)
    (metric : Metric) (hnd : (schema.map Metric.standard_name).Nodup)
    (hm : metric ∈ schema) :
    ((extract_financial_data ext pages schema bank year).filter
        fun x => decide (x.metric_name = metric.standard_name)).length ≤ 1 ∧
    ∀ (p t : ℕ) (page : Page) (term : String) (d : DataPoint),
      pages.get? p = some page →
      metric.search_terms.get? t = some term →
      processTerm ext bank year page p metric term = some d →
      (∀ p' t' page' term', pages.get? p' = some page' →
        metric.search_terms.get? t' = some term' →
        (p' < p ∨ (p' = p ∧ t' < t)) →
        processTerm ext bank year page' p' metric term' = none) →
      ((extract_financial_data ext pages schema bank year).filter
        fun x => decide (x.metric_name = metric.standard_name)) = [d] := by
  have hfe := filter_extract_eq ext pages bank year schema metric hnd hm
  constructor
  · rw [hfe]
    cases findMetricAux ext bank year metric 0 pages <;> simp [Option.toList]
  · intro p t page term d hp ht hd hfirst
    rw [hfe]
    have hsome : findMetricAux ext bank year metric 0 pages = some d := by
      refine findMetricAux_first ext bank year metric pages 0 p page d hp ?_ ?_
      · rw [Nat.zero_add]
        refine findTermHit_first ext bank year page p metric metric.search_terms
          t term d ht hd ?_
        intro t' term' hlt hget'
        exact hfirst p t' page term' hp hget' (Or.inr ⟨rfl, hlt⟩)
      · intro p' page' hlt hget'
        rw [Nat.zero_add]
        refine findTermHit_eq_none ext bank year page' p' metric
          metric.search_terms ?_
        intro t' term' hget''
        exact hfirst p' t' page' term' hget' hget'' (Or.inl hlt)
    rw [hsome]
    rfl

/-- The data point the concrete first-match run produces. -/
def dBeta : DataPoint :=
  { bank_name := none
    report_year := none
    metric_name := "metric_a"
    value := 7
    raw_value := "7"
    value_units := none
    value_currency := none
    value_kind := "amount"
    source_page := 1
    source_term_used := "beta"
    term_bbox := ⟨10, 10, 30, 20⟩
    is_validated := false }

/-- C1 witness: on the concrete two-page document, the first success in
    page-major, phrase-minor order is ("beta", page 1), and the filtered
    output is exactly that one record. -/
theorem C1_first_match_witness :
    ((extract_financial_data extZero [pageBeta, pageAlpha] [metricAB] none none).filter
      fun x => decide (x.metric_name = metricAB.standard_name)) = [dBeta] := by
  apply (C1_first_match_page_major extZero [pageBeta, pageAlpha] [metricAB] none none
      metricAB (by decide) (List.mem_singleton.mpr rfl)).2 0 1 pageBeta "beta" dBeta
      rfl (by decide) (by decide)
  intro p' t' page' term' hp' ht' hor
  rcases hor with h | ⟨hp0, ht1⟩
  · exact absurd h (Nat.not_lt_zero p')
  · subst hp0
    have ht0 : t' = 0 := by omega
    subst ht0
    simp only [List.get?_cons_zero, Option.some.injEq] at hp'
    simp only [metricAB, List.get?_cons_zero, Option.some.injEq] at ht'
    subst hp'
    subst ht'
    decide

end FinScraper
